import Mathlib

/-!
# Verification of the Document Change Workflow Engine

Shallow embedding of the editing core of the RAG-AI repository:

* `src/editing/change_model.py` — change records, statuses, locators;
* `src/editing/workflow_model.py` — change workflows and their operations;
* `src/editing/word_editor.py` — the document mutation primitives
  (`delete_paragraph`, `insert_paragraph_after`, `update_paragraph_text`,
  `_update_run_text`, `update_table_cell_text`, `replace_text_after_heading`);
* `src/editing/workflow_applier.py` — `WorkflowApplier.apply_workflow`.

The document structure follows python-docx as used by the code: a document
holds an ordered list of paragraphs (plus tables), a paragraph holds an
ordered list of runs, a run holds a text string and a set of optional
formatting attributes.  Python integers are modelled as `Int` (bounds checks
in the source are explicit `0 <= i < len(...)` comparisons), optional values
as `Option`, and Python truthiness tests on strings/ints are modelled
explicitly (`None` and `""`/`0` are falsy).  Fallible operations return a
`Bool` success flag exactly where the source returns one (or `None`).

Python's `str.isdigit`/`int` pair and `str.strip` are modelled over ASCII
digits and ASCII whitespace; the engine only ever feeds them style names
such as `"Heading 1"`.
-/

/-- Status of a change record (`ChangeStatus` in `change_model.py`). -/
inductive ChangeStatus where
  | proposed
  | accepted
  | rejected
  | applied
  | failed
deriving DecidableEq, Repr

/-- Type of a change record (`ChangeType` in `change_model.py`). -/
inductive ChangeType where
  | text_update
  | format_change
  | paragraph_insert
  | paragraph_delete
  | section_replace
  | table_cell_update
  | table_row_add
deriving DecidableEq, Repr

/-- The `ChangeLocation` union of `change_model.py`: `LocationParagraph`,
`LocationTable`, `LocationSection`, or a degenerate `int`/`str`/`None`
locator. -/
inductive ChangeLocation where
  | paragraph (paragraph_index : Int) (run_index : Option Int)
  | table (table_index : Int) (row_index : Int) (column_index : Int)
  | section (heading_text : String) (heading_style_name : Option String)
  | intLoc (n : Int)
  | strLoc (s : String)
  | noneLoc
deriving DecidableEq, Repr

/-- Payload values carried in `old_value`/`new_value`: the applier only ever
meets strings (text updates, inserts, table cells) and lists of strings
(section replaces). -/
inductive PyValue where
  | pstr (s : String)
  | plist (l : List String)
deriving DecidableEq, Repr

/-- Python `str(...)` applied to a payload, as done by the applier
(`str(change.new_value)`). -/
def pyStr : PyValue → String
  | .pstr s => s
  | .plist l => "[" ++ String.intercalate ", " (l.map (fun s => "'" ++ s ++ "'")) ++ "]"

/-- One change record (`DocumentChange` in `change_model.py`).  The fields
`description`, `source` and `timestamp` are never read by the engine and are
omitted. -/
structure DocumentChange where
  change_id : String
  document_id : String
  change_type : ChangeType
  location : ChangeLocation
  old_value : Option PyValue
  new_value : Option PyValue
  status : ChangeStatus
deriving DecidableEq, Repr

/-- python-docx `run.underline`: `None` (inherited / unset), `True`,
`False`, or a `WD_UNDERLINE` enum member (double, dotted, wavy, …),
identified here by its numeric enum value. -/
inductive UnderlineValue where
  | unset
  | plain (b : Bool)
  | enumVal (v : Nat)
deriving DecidableEq, Repr

/-- Is this underline value a `WD_UNDERLINE` enum member (neither `None`
nor a plain boolean)? -/
def UnderlineValue.isEnum : UnderlineValue → Bool
  | .enumVal _ => true
  | _ => false

/-- Formatting attribute set of a run, as read and written by
`word_editor.py` through the python-docx API.  `none` is python-docx `None`
(attribute inherited / unset). -/
structure RunFormatting where
  bold : Option Bool
  italic : Option Bool
  underline : UnderlineValue
  fontName : Option String
  fontSize : Option Nat
  colorRgb : Option Nat
  highlightColor : Option Nat
  strike : Option Bool
  subscript : Option Bool
  superscript : Option Bool
  allCaps : Option Bool
  smallCaps : Option Bool
  styleName : Option String
deriving DecidableEq, Repr

/-- Formatting of a freshly created run (`paragraph.add_run`): every
attribute unset. -/
def defaultFormatting : RunFormatting :=
  ⟨none, none, .unset, none, none, none, none, none, none, none, none, none, none⟩

/-- A text run. -/
structure Run where
  text : String
  fmt : RunFormatting
deriving DecidableEq, Repr

/-- A paragraph: a style name (python-docx `paragraph.style.name`; `none`
models a missing style object) and an ordered list of runs. -/
structure Para where
  styleName : Option String
  runs : List Run
deriving DecidableEq, Repr

/-- python-docx `paragraph.text`: concatenation of the runs' texts. -/
def Para.text (p : Para) : String :=
  String.join (p.runs.map (fun r => r.text))

/-- A table: a grid of cell texts plus the number of defined columns
(python-docx `len(table.columns)`, from the table grid). -/
structure Table where
  grid : List (List String)
  ncols : Nat
deriving DecidableEq, Repr

/-- The document structure: ordered paragraphs plus tables
(python-docx `document.paragraphs` / `document.tables`). -/
structure Document where
  paras : List Para
  tables : List Table
deriving DecidableEq, Repr

/-- A change workflow (`ChangeWorkflow` in `workflow_model.py`); timestamps
and metadata are never read by the applier and are omitted. -/
structure ChangeWorkflow where
  proposed_changes : List DocumentChange
  status : String
deriving DecidableEq, Repr

/-! ## Python string helpers

`str.startswith`, the `in` operator, `str.strip`, and the
`style.name.split(" ")[-1]` / `isdigit` / `int` level derivation used by
`replace_text_after_heading`. -/

/-- `leadsWith pat l`: `pat` is an initial segment of `l`. -/
def leadsWith : List Char → List Char → Bool
  | [], _ => true
  | _ :: _, [] => false
  | a :: as, b :: bs => a == b && leadsWith as bs

/-- `containsSeq hay needle`: `needle` occurs contiguously inside `hay`. -/
def containsSeq (hay needle : List Char) : Bool :=
  (List.range (hay.length + 1)).any (fun k => leadsWith needle (hay.drop k))

/-- Python `s.startswith(pat)`. -/
def pyStartsWith (s pat : String) : Bool :=
  leadsWith pat.data s.data

/-- Python `needle in hay` on strings. -/
def pyIn (needle hay : String) : Bool :=
  containsSeq hay.data needle.data

/-- ASCII whitespace stripped by Python `str.strip()`. -/
def pyWhitespaceChar (c : Char) : Bool :=
  c == ' ' || c == '\t' || c == '\n' || c == '\r' || c == '\x0b' || c == '\x0c'

/-- Python `s.strip()`. -/
def pyStrip (s : String) : String :=
  ⟨((s.data.dropWhile pyWhitespaceChar).reverse.dropWhile pyWhitespaceChar).reverse⟩

/-- Python truthiness of an optional string (`None` and `""` are falsy). -/
def truthy : Option String → Bool
  | some s => !(s == "")
  | none => false

/-- `style_name.split(" ")[-1]`: the characters after the last space (the
whole string when there is no space, empty when the string ends in a
space) — exactly the last element of Python's `split(" ")`. -/
def lastToken (cs : List Char) : List Char :=
  ((cs.reverse.takeWhile (fun c => !(c == ' '))).reverse)

/-- Python `level_str.isdigit()` over ASCII digits. -/
def isDigits (cs : List Char) : Bool :=
  !cs.isEmpty && cs.all (fun c => c.isDigit)

/-- Python `int(level_str)` for a digit string. -/
def digitsToNat (cs : List Char) : Nat :=
  cs.foldl (fun acc c => acc * 10 + (c.toNat - 48)) 0

/-- Heading level derived from a style name:
`level_str = style_name.split(" ")[-1]; int(level_str) if level_str.isdigit()`
with `-1` when no level can be derived (`word_editor.py`, the
`try`/`except` blocks around the level computation). -/
def style_level (styleName : String) : Int :=
  if isDigits (lastToken styleName.data) then
    (digitsToNat (lastToken styleName.data) : Int)
  else -1

/-! ## WordEditor primitives (`word_editor.py`) -/

/-- Paragraph produced by python-docx `add_paragraph(text, style)` /
`insert_paragraph_before(text, style)`: a run is added only when the text is
non-empty; with no explicit style the paragraph carries the default style
`"Normal"`. -/
def mkParagraph (text : String) (style : Option String) : Para :=
  { styleName := match style with
      | some s => some s
      | none => some "Normal"
    runs := if text == "" then [] else [⟨text, defaultFormatting⟩] }

/-- `WordEditor.delete_paragraph` (lines 147-163): bounds-checked removal,
returning a success flag. -/
def delete_paragraph (d : Document) (paragraph_index : Int) : Document × Bool :=
  if 0 ≤ paragraph_index ∧ paragraph_index < (d.paras.length : Int) then
    ({ d with paras := d.paras.eraseIdx paragraph_index.toNat }, true)
  else (d, false)

/-- `WordEditor.insert_paragraph_after` (lines 117-145): append when the
anchor is the last paragraph, otherwise insert before the paragraph at
`paragraph_index + 1`.  The `Bool` models returning the new paragraph
(success) versus `None` (out of bounds). -/
def insert_paragraph_after (d : Document) (paragraph_index : Int) (text : String)
    (style : Option String) : Document × Bool :=
  if 0 ≤ paragraph_index ∧ paragraph_index < (d.paras.length : Int) then
    if paragraph_index == (d.paras.length : Int) - 1 then
      ({ d with paras := d.paras ++ [mkParagraph text style] }, true)
    else
      let j := paragraph_index.toNat + 1
      ({ d with paras := d.paras.take j ++ [mkParagraph text style] ++ d.paras.drop j }, true)
  else (d, false)

/-- The underline copy of `update_paragraph_text` (lines 370-376): the
captured value is reassigned only when it `is True` or `is False`; a
`None` is left unassigned (which equals copying it), and a `WD_UNDERLINE`
enum value is dropped, leaving the new run's underline unset — the
source's own comment concedes it sticks to `True`/`False`/`None`. -/
def copyUnderline : UnderlineValue → UnderlineValue
  | .plain true => .plain true
  | .plain false => .plain false
  | _ => .unset

/-- The formatting carried by the single new run after
`update_paragraph_text` with `preserve_style=True` (lines 286-376), given
the formatting snapshot captured from the first original run.  The new run
starts with every attribute unset (`add_run`); each attribute is then
assigned under the source's own guard: Python truthiness for font name,
font size and character style (`if font_to_apply.get('name'): ...`), an
`is not None` test for highlight/strike/sub/superscript/caps, an
unconditional copy for the colour (`RGBColor` is a nonempty tuple, hence
truthy whenever present), explicit `True`/`False` assignment for bold and
italic (a `None` is left unassigned, which equals copying it), and the
selective underline copy `copyUnderline`. -/
def fmtFromFirstRun (first : RunFormatting) : RunFormatting :=
  { bold := first.bold
    italic := first.italic
    underline := copyUnderline first.underline
    fontName := match first.fontName with
      | some s => if s == "" then none else some s
      | none => none
    fontSize := match first.fontSize with
      | some n => if n == 0 then none else some n
      | none => none
    colorRgb := first.colorRgb
    highlightColor := first.highlightColor
    strike := first.strike
    subscript := first.subscript
    superscript := first.superscript
    allCaps := first.allCaps
    smallCaps := first.smallCaps
    styleName := match first.styleName with
      | some s => if s == "" then none else some s
      | none => none }

/-- `WordEditor.update_paragraph_text` (lines 269-384).  Out of bounds:
print a warning and return with no mutation.  With `preserve_style`, the
original runs are replaced by a single run holding the new text and the
formatting snapshot of the first original run (captured before the runs are
removed); with no original runs, or without `preserve_style`, the new
single run has default formatting. -/
def update_paragraph_text (d : Document) (paragraph_index : Int) (new_text : String)
    (preserve_style : Bool) : Document :=
  if 0 ≤ paragraph_index ∧ paragraph_index < (d.paras.length : Int) then
    let i := paragraph_index.toNat
    let p := d.paras.getD i ⟨none, []⟩
    let newRuns : List Run :=
      if preserve_style then
        match p.runs with
        | [] => [⟨new_text, defaultFormatting⟩]
        | first :: _ => [⟨new_text, fmtFromFirstRun first.fmt⟩]
      else [⟨new_text, defaultFormatting⟩]
    { d with paras := d.paras.set i { p with runs := newRuns } }
  else d

/-- `WordEditor._update_run_text` (lines 386-448): out-of-bounds run index
returns silently; otherwise only the text of the addressed run changes (the
source re-applies the very formatting it captured from that run). -/
def update_run_text (p : Para) (run_index : Int) (new_text : String) : Para :=
  if 0 ≤ run_index ∧ run_index < (p.runs.length : Int) then
    let j := run_index.toNat
    let r := p.runs.getD j ⟨"", defaultFormatting⟩
    { p with runs := p.runs.set j { r with text := new_text } }
  else p

/-- `WordEditor.update_table_cell_text` (lines 196-223): bounds checks on
table, row and column index, then write the cell text; the final guard
models the `except IndexError` safeguard for a row physically shorter than
the declared column count. -/
def update_table_cell_text (d : Document) (table_index row col : Int)
    (text : String) : Document × Bool :=
  if 0 ≤ table_index ∧ table_index < (d.tables.length : Int) then
    let t := d.tables.getD table_index.toNat ⟨[], 0⟩
    if 0 ≤ row ∧ row < (t.grid.length : Int) then
      if 0 ≤ col ∧ col < (t.ncols : Int) then
        let r := t.grid.getD row.toNat []
        if col.toNat < r.length then
          let t2 : Table := { t with grid := t.grid.set row.toNat (r.set col.toNat text) }
          ({ d with tables := d.tables.set table_index.toNat t2 }, true)
        else (d, false)
      else (d, false)
    else (d, false)
  else (d, false)

/-- The heading-match test of `replace_text_after_heading` (lines 57-74):
with a truthy style name, the paragraph's style name must start with it and
the heading text must occur inside the paragraph text; otherwise the
stripped paragraph text must equal the heading text exactly. -/
def heading_matches (heading_text : String) (heading_style_name : Option String)
    (p : Para) : Bool :=
  if truthy heading_style_name then
    match p.styleName with
    | some sn =>
        !(sn == "") && pyStartsWith sn (heading_style_name.getD "")
          && pyIn heading_text p.text
    | none => false
  else heading_text == pyStrip p.text

/-- The level recorded for the matched heading (lines 62-68): derived from
its style name only when a truthy style name was supplied, `-1` otherwise. -/
def found_heading_level (heading_style_name : Option String) (p : Para) : Int :=
  if truthy heading_style_name then
    match p.styleName with
    | some sn => style_level sn
    | none => -1
  else -1

/-- The section-boundary test of `replace_text_after_heading`
(lines 81-99): a paragraph whose style name starts with `"Heading"` ends
the section; when a style name was given and both the starting level and
this heading's level were derivable the heading only ends the section if
its level is `≤` the starting level. -/
def heading_boundary (style_given : Bool) (heading_level : Int) (p : Para) : Bool :=
  match p.styleName with
  | some sn =>
    if !(sn == "") && pyStartsWith sn "Heading" then
      let current_level := style_level sn
      if style_given && !(heading_level == -1) && !(current_level == -1) then
        decide (current_level ≤ heading_level)
      else true
    else false
  | none => false

/-- Index of the first paragraph matching the heading (the `for`/`break`
scan of lines 57-74). -/
def find_heading_index (paras : List Para) (heading_text : String)
    (heading_style_name : Option String) : Option Nat :=
  paras.findIdx? (heading_matches heading_text heading_style_name)

/-- The deletion loop `for i in range(end_index - 1, start_index, -1)`
(lines 101-103): starting from the current list, erase indices
`start_index + n`, `start_index + n - 1`, …, `start_index + 1`. -/
def erase_range_desc (paras : List Para) (start_index : Nat) : Nat → List Para
  | 0 => paras
  | n + 1 => erase_range_desc (paras.eraseIdx (start_index + n + 1)) start_index n

/-- The insertion loop `for new_para_text in new_content_paragraphs:
anchor.insert_paragraph_before(...)` (lines 106-109): each text is inserted
immediately before the anchor, whose position advances by one per
insertion. -/
def insert_texts_before (paras : List Para) (pos : Nat) : List String → List Para
  | [] => paras
  | t :: ts => insert_texts_before
      (paras.take pos ++ [mkParagraph t none] ++ paras.drop pos) (pos + 1) ts

/-- The append loop `for new_para_text ...: self.document.add_paragraph(...)`
(lines 110-112). -/
def append_texts (paras : List Para) (ts : List String) : List Para :=
  ts.foldl (fun ps t => ps ++ [mkParagraph t none]) paras

/-- `WordEditor.replace_text_after_heading` (lines 40-114): find the first
matching heading, derive its level, scan forward for the section boundary,
delete every paragraph strictly between heading and boundary, insert the
new content right after the heading, and return `True`; return `False`
without mutating when the heading is not found. -/
def replace_text_after_heading (d : Document) (heading_text : String)
    (new_content_paragraphs : List String) (heading_style_name : Option String) :
    Document × Bool :=
  match find_heading_index d.paras heading_text heading_style_name with
  | none => (d, false)
  | some start_index =>
    let p0 := d.paras.getD start_index ⟨none, []⟩
    let heading_level := found_heading_level heading_style_name p0
    let end_index :=
      match (d.paras.drop (start_index + 1)).findIdx?
          (heading_boundary (truthy heading_style_name) heading_level) with
      | some k => start_index + 1 + k
      | none => d.paras.length
    let paras1 := erase_range_desc d.paras start_index (end_index - start_index - 1)
    let paras2 :=
      if new_content_paragraphs.isEmpty then paras1
      else if start_index + 1 < paras1.length then
        insert_texts_before paras1 (start_index + 1) new_content_paragraphs
      else append_texts paras1 new_content_paragraphs
    ({ d with paras := paras2 }, true)

/-! ## ChangeWorkflow operations (`workflow_model.py`) -/

/-- Core of `ChangeWorkflow.update_change_status` (via `get_change_by_id`,
lines 30-59): overwrite the status of the first change with the given id;
no-op when absent. -/
def set_status_by_id : List DocumentChange → String → ChangeStatus → List DocumentChange
  | [], _, _ => []
  | c :: rest, id, st =>
    if c.change_id == id then { c with status := st } :: rest
    else c :: set_status_by_id rest id st

/-- `ChangeWorkflow.update_change_status`. -/
def update_change_status (w : ChangeWorkflow) (id : String) (st : ChangeStatus) :
    ChangeWorkflow :=
  { w with proposed_changes := set_status_by_id w.proposed_changes id st }

/-- `ChangeWorkflow.get_changes_by_status` (lines 61-70). -/
def get_changes_by_status (w : ChangeWorkflow) (st : ChangeStatus) :
    List DocumentChange :=
  w.proposed_changes.filter (fun c => c.status == st)

/-- `ChangeWorkflow.get_accepted_changes` (lines 80-86). -/
def get_accepted_changes (w : ChangeWorkflow) : List DocumentChange :=
  get_changes_by_status w .accepted

/-- `ChangeWorkflow.all_changes_reviewed` (lines 72-78): every change's
status is `accepted`, `rejected`, `applied` or `failed`. -/
def all_changes_reviewed (w : ChangeWorkflow) : Bool :=
  w.proposed_changes.all (fun c =>
    c.status == .accepted || c.status == .rejected
      || c.status == .applied || c.status == .failed)

/-! ## WorkflowApplier (`workflow_applier.py`) -/

/-- The mutable state the applier threads: the document being edited and
the workflow whose change statuses are written back. -/
structure EngineState where
  doc : Document
  wf : ChangeWorkflow
deriving Repr

/-- Does the change type/locator pair land in the `text_updates_para`
bucket (lines 45-50)? -/
def is_para_text_update (c : DocumentChange) : Bool :=
  c.change_type == .text_update &&
    match c.location with
    | .paragraph _ none => true
    | _ => false

/-- Does the change land in the `text_updates_run` bucket (lines 45-48)? -/
def is_run_text_update (c : DocumentChange) : Bool :=
  c.change_type == .text_update &&
    match c.location with
    | .paragraph _ (some _) => true
    | _ => false

/-- Is the locator a `LocationParagraph` (so that the sort key
`c.location.paragraph_index` exists)?  For any other locator the Python
sort raises `AttributeError`, aborting `apply_workflow`. -/
def has_paragraph_index (c : DocumentChange) : Bool :=
  match c.location with
  | .paragraph _ _ => true
  | _ => false

/-- Sort key `c.location.paragraph_index` (defaulting to `0` on the
locator shapes for which Python would instead raise; `apply_workflow`
only sorts after establishing `has_paragraph_index` for every element). -/
def para_index_key (c : DocumentChange) : Int :=
  match c.location with
  | .paragraph i _ => i
  | _ => 0

/-- The `paragraph_deletes` bucket (line 53-54): every accepted
`PARAGRAPH_DELETE`, in workflow order. -/
def accepted_deletes (w : ChangeWorkflow) : List DocumentChange :=
  (get_accepted_changes w).filter (fun c => c.change_type == .paragraph_delete)

/-- The `paragraph_inserts` bucket (line 51-52). -/
def accepted_inserts (w : ChangeWorkflow) : List DocumentChange :=
  (get_accepted_changes w).filter (fun c => c.change_type == .paragraph_insert)

/-- The `text_updates_para` bucket. -/
def accepted_text_updates_para (w : ChangeWorkflow) : List DocumentChange :=
  (get_accepted_changes w).filter is_para_text_update

/-- The `text_updates_run` bucket. -/
def accepted_text_updates_run (w : ChangeWorkflow) : List DocumentChange :=
  (get_accepted_changes w).filter is_run_text_update

/-- The `section_replaces` bucket (line 55-56). -/
def accepted_section_replaces (w : ChangeWorkflow) : List DocumentChange :=
  (get_accepted_changes w).filter (fun c => c.change_type == .section_replace)

/-- The `table_cell_updates` bucket (line 57-58). -/
def accepted_table_cell_updates (w : ChangeWorkflow) : List DocumentChange :=
  (get_accepted_changes w).filter (fun c => c.change_type == .table_cell_update)

/-- `paragraph_deletes.sort(key=..., reverse=True)` (line 62): Python's
stable sort, descending by paragraph index.  Stable sorts with a fixed
comparator have a unique result, so insertion sort models `list.sort`
exactly. -/
def sorted_deletes (w : ChangeWorkflow) : List DocumentChange :=
  List.insertionSort (fun a b => para_index_key b ≤ para_index_key a)
    (accepted_deletes w)

/-- `paragraph_inserts.sort(key=...)` (line 83): stable ascending sort. -/
def sorted_inserts (w : ChangeWorkflow) : List DocumentChange :=
  List.insertionSort (fun a b => para_index_key a ≤ para_index_key b)
    (accepted_inserts w)

/-- One iteration of the delete loop (lines 63-76). -/
def delete_step (s : EngineState) (c : DocumentChange) : EngineState :=
  match c.location with
  | .paragraph i _ =>
    if (delete_paragraph s.doc i).2 then
      ⟨(delete_paragraph s.doc i).1, update_change_status s.wf c.change_id .applied⟩
    else ⟨(delete_paragraph s.doc i).1, update_change_status s.wf c.change_id .failed⟩
  | _ => ⟨s.doc, update_change_status s.wf c.change_id .failed⟩

/-- One iteration of the insert loop (lines 90-147): the locator's
`paragraph_index` is the index the new paragraph should occupy; `0` inserts
before the current first paragraph (or into an empty document), a value
equal to the current length appends, anything else in range goes through
`insert_paragraph_after(target_index - 1, ...)`, and an out-of-range target
marks the change failed without touching the document. -/
def insert_step (s : EngineState) (c : DocumentChange) : EngineState :=
  match c.location, c.new_value with
  | .paragraph target_index _, some v =>
    if 0 ≤ target_index ∧ target_index ≤ (s.doc.paras.length : Int) then
      if target_index == 0 then
        if 0 < s.doc.paras.length then
          ⟨{ s.doc with paras := [mkParagraph (pyStr v) none] ++ s.doc.paras },
            update_change_status s.wf c.change_id .applied⟩
        else
          ⟨{ s.doc with paras := s.doc.paras ++ [mkParagraph (pyStr v) none] },
            update_change_status s.wf c.change_id .applied⟩
      else if 0 < target_index ∧ target_index ≤ (s.doc.paras.length : Int) then
        ⟨(insert_paragraph_after s.doc (target_index - 1) (pyStr v) none).1,
          update_change_status s.wf c.change_id .applied⟩
      else
        ⟨s.doc, update_change_status s.wf c.change_id .failed⟩
    else ⟨s.doc, update_change_status s.wf c.change_id .failed⟩
  | _, _ => ⟨s.doc, update_change_status s.wf c.change_id .failed⟩

/-- One iteration of the paragraph-level text-update loop (lines 157-168).
Note the source marks the change `APPLIED` unconditionally after calling
`update_paragraph_text`, which returns silently on an out-of-bounds
index. -/
def text_update_para_step (s : EngineState) (c : DocumentChange) : EngineState :=
  match c.location, c.new_value with
  | .paragraph i _, some v =>
    ⟨update_paragraph_text s.doc i (pyStr v) true,
      update_change_status s.wf c.change_id .applied⟩
  | _, _ => ⟨s.doc, update_change_status s.wf c.change_id .failed⟩

/-- One iteration of the run-level text-update loop (lines 170-187): the
paragraph index is bounds-checked (failed when stale), then
`_update_run_text` runs (which itself returns silently on a bad run
index, so the change is marked applied). -/
def text_update_run_step (s : EngineState) (c : DocumentChange) : EngineState :=
  match c.location, c.new_value with
  | .paragraph i (some ri), some v =>
    if 0 ≤ i ∧ i < (s.doc.paras.length : Int) then
      ⟨{ s.doc with paras := s.doc.paras.set i.toNat (update_run_text (s.doc.paras.getD i.toNat ⟨none, []⟩) ri (pyStr v)) },
        update_change_status s.wf c.change_id .applied⟩
    else ⟨s.doc, update_change_status s.wf c.change_id .failed⟩
  | _, _ => ⟨s.doc, update_change_status s.wf c.change_id .failed⟩

/-- One iteration of the section-replace loop (lines 190-208): requires a
section locator and a list payload, then delegates to
`replace_text_after_heading` and maps its success flag to
`APPLIED`/`FAILED`. -/
def section_step (s : EngineState) (c : DocumentChange) : EngineState :=
  match c.location, c.new_value with
  | .section ht hsn, some (.plist l) =>
    if (replace_text_after_heading s.doc ht l hsn).2 then
      ⟨(replace_text_after_heading s.doc ht l hsn).1,
        update_change_status s.wf c.change_id .applied⟩
    else ⟨(replace_text_after_heading s.doc ht l hsn).1,
      update_change_status s.wf c.change_id .failed⟩
  | _, _ => ⟨s.doc, update_change_status s.wf c.change_id .failed⟩

/-- One iteration of the table-cell-update loop (lines 210-229). -/
def table_step (s : EngineState) (c : DocumentChange) : EngineState :=
  match c.location, c.new_value with
  | .table ti ri ci, some v =>
    if (update_table_cell_text s.doc ti ri ci (pyStr v)).2 then
      ⟨(update_table_cell_text s.doc ti ri ci (pyStr v)).1,
        update_change_status s.wf c.change_id .applied⟩
    else ⟨(update_table_cell_text s.doc ti ri ci (pyStr v)).1,
      update_change_status s.wf c.change_id .failed⟩
  | _, _ => ⟨s.doc, update_change_status s.wf c.change_id .failed⟩

/-- Result of `apply_workflow`.  `abortedBySortError` records the uncaught
`AttributeError` raised by `paragraph_deletes.sort(...)` /
`paragraph_inserts.sort(...)` when an accepted delete/insert carries a
locator without a `paragraph_index` attribute: the call aborts there, with
the in-place mutations performed so far still visible.  (Independently,
after all phases and the workflow-status update, line 234 of the source,
`self.updated_at = datetime.utcnow()`, always raises `NameError` because
`datetime` is not imported in `workflow_applier.py`; this happens after
every modelled mutation, so the model captures the full observable effect
on document and workflow.) -/
structure ApplyResult where
  doc : Document
  wf : ChangeWorkflow
  abortedBySortError : Bool
deriving Repr

/-- `WorkflowApplier.apply_workflow` (lines 21-234): partition the accepted
changes into buckets, apply deletes (descending), inserts (ascending),
paragraph-level text updates, run-level text updates, section replaces and
table cell updates in that order, each step writing `APPLIED`/`FAILED`
onto its change record; finally set the workflow status to `"completed"`
when `all_changes_reviewed()` holds. -/
def apply_workflow (doc : Document) (w : ChangeWorkflow) : ApplyResult :=
  if ¬ ((accepted_deletes w).all has_paragraph_index) then ⟨doc, w, true⟩ else
  let s1 := (sorted_deletes w).foldl delete_step ⟨doc, w⟩
  if ¬ ((accepted_inserts w).all has_paragraph_index) then ⟨s1.doc, s1.wf, true⟩ else
  let s2 := (sorted_inserts w).foldl insert_step s1
  let s3 := (accepted_text_updates_para w).foldl text_update_para_step s2
  let s4 := (accepted_text_updates_run w).foldl text_update_run_step s3
  let s5 := (accepted_section_replaces w).foldl section_step s4
  let s6 := (accepted_table_cell_updates w).foldl table_step s5
  let wf7 := if all_changes_reviewed s6.wf then { s6.wf with status := "completed" }
             else s6.wf
  ⟨s6.doc, wf7, false⟩

/-! ## Specification-side definitions

These definitions follow the wording of the specification claims and are
compared against the source-derived definitions above. -/

/-- The claim-described result of a batch of deletions: keep the elements
whose (pre-application) index satisfies `keep`, in order.  `n` is the index
of the first element of `l`. -/
def keepIdx {α : Type _} : List α → Nat → (Nat → Bool) → List α
  | [], _, _ => []
  | a :: l, n, keep =>
    if keep n then a :: keepIdx l (n + 1) keep else keepIdx l (n + 1) keep

/-- Claim-side "starts with": `s` begins with `pat`. -/
def StrLeads (s pat : String) : Prop := ∃ rest, s = pat ++ rest

/-- Claim-side "occurs anywhere as a substring". -/
def StrSub (needle hay : String) : Prop := ∃ pre post, hay = pre ++ needle ++ post

/-! ## Generic list lemmas -/

theorem findIdx_getD_iff {α : Type _} (p : α → Bool) (dflt : α) (l : List α) (i : Nat) :
    List.findIdx? p l = some i ↔
      (i < l.length ∧ p (l.getD i dflt) = true ∧
        ∀ j, j < i → p (l.getD j dflt) = false) := by
  induction l generalizing i with
  | nil => simp
  | cons a t ih =>
    rw [List.findIdx?_cons]
    by_cases hp : p a = true
    · simp only [hp, if_true]
      constructor
      · intro h
        injection h with h
        subst h
        exact ⟨Nat.succ_pos _, by simpa using hp, fun j hj => absurd hj (Nat.not_lt_zero j)⟩
      · rintro ⟨h1, h2, h3⟩
        cases i with
        | zero => rfl
        | succ k =>
          have := h3 0 (Nat.succ_pos k)
          simp at this
          rw [this] at hp
          exact absurd hp (by simp)
    · simp only [hp, if_false]
      rw [List.findIdx?_succ]
      have hpa : p a = false := by
        cases h : p a with
        | true => exact absurd h hp
        | false => rfl
      constructor
      · intro h
        rcases Option.map_eq_some'.mp h with ⟨k, hk, hki⟩
        subst hki
        rcases (ih k).mp hk with ⟨h1, h2, h3⟩
        refine ⟨by simpa using Nat.succ_lt_succ h1, by simpa using h2, ?_⟩
        intro j hj
        cases j with
        | zero => simpa using hpa
        | succ m => simpa using h3 m (Nat.lt_of_succ_lt_succ hj)
      · rintro ⟨h1, h2, h3⟩
        cases i with
        | zero =>
          simp at h2
          rw [h2] at hp
          exact absurd hp (by simp)
        | succ k =>
          have hk : List.findIdx? p t = some k := by
            refine (ih k).mpr ⟨Nat.lt_of_succ_lt_succ h1, by simpa using h2, ?_⟩
            intro j hj
            simpa using h3 (j + 1) (Nat.succ_lt_succ hj)
          rw [hk]
          rfl

theorem findIdx_getD_none {α : Type _} (p : α → Bool) (dflt : α) (l : List α)
    (h : ∀ j, j < l.length → p (l.getD j dflt) = false) :
    List.findIdx? p l = none := by
  rw [List.findIdx?_eq_none_iff]
  intro x hx
  rcases List.getElem_of_mem hx with ⟨j, hj, hxj⟩
  have := h j hj
  rwa [List.getD_eq_getElem?_getD, List.getElem?_eq_getElem hj, Option.getD_some, hxj] at this

theorem keepIdx_append {α : Type _} (a b : List α) (n : Nat) (p : Nat → Bool) :
    keepIdx (a ++ b) n p = keepIdx a n p ++ keepIdx b (n + a.length) p := by
  induction a generalizing n with
  | nil => simp [keepIdx]
  | cons x t ih =>
    simp only [List.cons_append, keepIdx, List.length_cons]
    have harith : n + 1 + t.length = n + (t.length + 1) := by omega
    by_cases h : p n = true
    · simp [h, ih, harith]
    · have h' : p n = false := by
        cases hx : p n with
        | true => exact absurd hx h
        | false => rfl
      simp [h', ih, harith]

theorem keepIdx_all_true {α : Type _} (l : List α) (n : Nat) (p : Nat → Bool)
    (h : ∀ m, n ≤ m → p m = true) : keepIdx l n p = l := by
  induction l generalizing n with
  | nil => rfl
  | cons x t ih =>
    simp only [keepIdx, h n (Nat.le_refl n), if_true]
    rw [ih (n + 1) (fun m hm => h m (by omega))]

theorem keepIdx_congr {α : Type _} (l : List α) (n : Nat) (p q : Nat → Bool)
    (h : ∀ m, n ≤ m → m < n + l.length → p m = q m) :
    keepIdx l n p = keepIdx l n q := by
  induction l generalizing n with
  | nil => rfl
  | cons x t ih =>
    have h0 : p n = q n := h n (Nat.le_refl n) (by simp)
    have ht : keepIdx t (n + 1) p = keepIdx t (n + 1) q :=
      ih (n + 1) (fun m h1 h2 => h m (by omega) (by simp at h2 ⊢; omega))
    simp only [keepIdx, h0, ht]

theorem keepIdx_eraseIdx {α : Type _} (l : List α) (i : Nat) (hi : i < l.length)
    (p q : Nat → Bool)
    (hpi : p i = false)
    (hup : ∀ m, i < m → p m = true)
    (hlo : ∀ m, m < i → q m = p m)
    (hqa : ∀ m, i ≤ m → q m = true) :
    keepIdx (l.eraseIdx i) 0 q = keepIdx l 0 p := by
  have htl : (l.take i).length = i := by
    simp [List.length_take]
    omega
  have hdecomp : l.take i ++ l[i] :: l.drop (i + 1) = l := by
    conv_rhs => rw [← List.take_append_drop i l]
    rw [List.drop_eq_getElem_cons hi]
  rw [List.eraseIdx_eq_take_drop_succ, keepIdx_append, htl, Nat.zero_add]
  conv_rhs => rw [← hdecomp]
  rw [keepIdx_append, htl, Nat.zero_add]
  have hfst : keepIdx (l.take i) 0 q = keepIdx (l.take i) 0 p := by
    refine keepIdx_congr _ _ _ _ (fun m _ hm => ?_)
    rw [Nat.zero_add, htl] at hm
    exact hlo m hm
  have hsnd : keepIdx (l.drop (i + 1)) i q = l.drop (i + 1) :=
    keepIdx_all_true _ _ _ (fun m hm => hqa m hm)
  have hrhs : keepIdx (l[i] :: l.drop (i + 1)) i p = l.drop (i + 1) := by
    simp only [keepIdx, hpi, if_false]
    exact keepIdx_all_true _ _ _ (fun m hm => hup m (by omega))
  rw [hfst, hsnd, hrhs]

theorem erase_range_desc_spec (l : List Para) (s : Nat) :
    ∀ n, s + n < l.length →
      erase_range_desc l s n = l.take (s + 1) ++ l.drop (s + 1 + n) := by
  intro n
  induction n generalizing l with
  | zero =>
    intro _
    simp only [erase_range_desc, Nat.add_zero]
    exact (List.take_append_drop (s + 1) l).symm
  | succ n ih =>
    intro hlen
    simp only [erase_range_desc]
    have hlen' : s + n < (l.eraseIdx (s + n + 1)).length := by
      rw [List.length_eraseIdx]
      have : s + n + 1 < l.length := by omega
      simp [this]
      omega
    rw [ih (l.eraseIdx (s + n + 1)) hlen']
    rw [List.eraseIdx_eq_take_drop_succ]
    have htl : (l.take (s + n + 1)).length = s + n + 1 := by
      simp [List.length_take]
      omega
    have h1 : (l.take (s + n + 1) ++ l.drop (s + n + 1 + 1)).take (s + 1)
        = l.take (s + 1) := by
      rw [List.take_append_of_le_length (by omega : s + 1 ≤ (l.take (s + n + 1)).length)]
      rw [List.take_take]
      congr 1
      omega
    have h2 : (l.take (s + n + 1) ++ l.drop (s + n + 1 + 1)).drop (s + 1 + n)
        = l.drop (s + n + 1 + 1) := by
      have hlen2 : s + 1 + n = (l.take (s + n + 1)).length := by omega
      rw [hlen2, List.drop_left]
    rw [h1, h2]
    have harith : s + n + 1 + 1 = s + 1 + (n + 1) := by omega
    rw [harith]

theorem insert_texts_before_spec (ts : List String) :
    ∀ (ps : List Para) (pos : Nat), pos ≤ ps.length →
      insert_texts_before ps pos ts
        = ps.take pos ++ ts.map (fun t => mkParagraph t none) ++ ps.drop pos := by
  induction ts with
  | nil =>
    intro ps pos _
    simp [insert_texts_before]
  | cons t ts ih =>
    intro ps pos hpos
    simp only [insert_texts_before]
    have hlen : (ps.take pos).length = pos := by
      simp [List.length_take]
      omega
    have hlen2 : pos + 1 ≤ (ps.take pos ++ [mkParagraph t none] ++ ps.drop pos).length := by
      simp
      omega
    rw [ih _ (pos + 1) hlen2]
    have htake : (ps.take pos ++ [mkParagraph t none] ++ ps.drop pos).take (pos + 1)
        = ps.take pos ++ [mkParagraph t none] := by
      rw [List.append_assoc]
      have : pos + 1 = (ps.take pos).length + 1 := by omega
      rw [this, List.take_append]
      simp
    have hdrop : (ps.take pos ++ [mkParagraph t none] ++ ps.drop pos).drop (pos + 1)
        = ps.drop pos := by
      rw [List.append_assoc]
      have : pos + 1 = (ps.take pos).length + 1 := by omega
      rw [this, List.drop_append]
      simp
    rw [htake, hdrop]
    simp

theorem append_texts_spec (ts : List String) :
    ∀ ps : List Para,
      append_texts ps ts = ps ++ ts.map (fun t => mkParagraph t none) := by
  induction ts with
  | nil => intro ps; simp [append_texts]
  | cons t ts ih =>
    intro ps
    simp only [append_texts, List.foldl_cons]
    have := ih (ps ++ [mkParagraph t none])
    simp only [append_texts] at this
    rw [this]
    simp

theorem leadsWith_iff (pat l : List Char) :
    leadsWith pat l = true ↔ ∃ rest, l = pat ++ rest := by
  induction pat generalizing l with
  | nil =>
    simp [leadsWith]
  | cons a pa ih =>
    cases l with
    | nil =>
      simp [leadsWith]
    | cons b lb =>
      simp only [leadsWith, Bool.and_eq_true, beq_iff_eq]
      rw [ih lb]
      constructor
      · rintro ⟨hab, rest, hr⟩
        exact ⟨rest, by rw [hab, hr]; rfl⟩
      · rintro ⟨rest, hr⟩
        injection hr with h1 h2
        exact ⟨h1.symm, rest, h2⟩

theorem containsSeq_iff (hay needle : List Char) :
    containsSeq hay needle = true ↔ ∃ pre post, hay = pre ++ needle ++ post := by
  unfold containsSeq
  rw [List.any_eq_true]
  constructor
  · rintro ⟨k, hk, hlw⟩
    rcases (leadsWith_iff needle (hay.drop k)).mp hlw with ⟨rest, hr⟩
    exact ⟨hay.take k, rest, by rw [List.append_assoc, ← hr, List.take_append_drop]⟩
  · rintro ⟨pre, post, h⟩
    refine ⟨pre.length, ?_, ?_⟩
    · rw [List.mem_range]
      have hlen : hay.length = (pre ++ needle ++ post).length := by rw [h]
      simp only [List.length_append] at hlen
      omega
    · rw [leadsWith_iff]
      refine ⟨post, ?_⟩
      rw [h, List.append_assoc, List.drop_left]

theorem pyStartsWith_iff (s pat : String) :
    pyStartsWith s pat = true ↔ StrLeads s pat := by
  unfold pyStartsWith StrLeads
  rw [leadsWith_iff]
  constructor
  · rintro ⟨rest, hr⟩
    refine ⟨⟨rest⟩, ?_⟩
    apply String.ext
    rw [String.data_append]
    exact hr
  · rintro ⟨rest, hr⟩
    exact ⟨rest.data, by rw [hr, String.data_append]⟩

theorem pyIn_iff (needle hay : String) :
    pyIn needle hay = true ↔ StrSub needle hay := by
  unfold pyIn StrSub
  rw [containsSeq_iff]
  constructor
  · rintro ⟨pre, post, h⟩
    refine ⟨⟨pre⟩, ⟨post⟩, ?_⟩
    apply String.ext
    rw [String.data_append, String.data_append]
    exact h
  · rintro ⟨pre, post, h⟩
    exact ⟨pre.data, post.data, by rw [h, String.data_append, String.data_append]⟩

/-! ## Status bookkeeping lemmas

`apply_workflow` writes change statuses through
`workflow.update_change_status(change.change_id, APPLIED | FAILED)`; these
lemmas track what such writes can do to the record a given id resolves to. -/

/-- Every phase step of `apply_workflow` rewrites exactly its change's
status, to `APPLIED` or `FAILED`, and leaves the workflow-level status
field alone. -/
def WritesTerminal (step : EngineState → DocumentChange → EngineState) : Prop :=
  ∀ s c, (step s c).wf.status = s.wf.status ∧
    ∃ st, (st = ChangeStatus.applied ∨ st = ChangeStatus.failed) ∧
      (step s c).wf.proposed_changes = set_status_by_id s.wf.proposed_changes c.change_id st

theorem delete_step_writes : WritesTerminal delete_step := by
  intro s c
  unfold delete_step
  repeat' split
  all_goals
    first
      | exact ⟨rfl, ChangeStatus.applied, Or.inl rfl, rfl⟩
      | exact ⟨rfl, ChangeStatus.failed, Or.inr rfl, rfl⟩

theorem insert_step_writes : WritesTerminal insert_step := by
  intro s c
  unfold insert_step
  repeat' split
  all_goals
    first
      | exact ⟨rfl, ChangeStatus.applied, Or.inl rfl, rfl⟩
      | exact ⟨rfl, ChangeStatus.failed, Or.inr rfl, rfl⟩

theorem text_update_para_step_writes : WritesTerminal text_update_para_step := by
  intro s c
  unfold text_update_para_step
  repeat' split
  all_goals
    first
      | exact ⟨rfl, ChangeStatus.applied, Or.inl rfl, rfl⟩
      | exact ⟨rfl, ChangeStatus.failed, Or.inr rfl, rfl⟩

theorem text_update_run_step_writes : WritesTerminal text_update_run_step := by
  intro s c
  unfold text_update_run_step
  repeat' split
  all_goals
    first
      | exact ⟨rfl, ChangeStatus.applied, Or.inl rfl, rfl⟩
      | exact ⟨rfl, ChangeStatus.failed, Or.inr rfl, rfl⟩

theorem section_step_writes : WritesTerminal section_step := by
  intro s c
  unfold section_step
  repeat' split
  all_goals
    first
      | exact ⟨rfl, ChangeStatus.applied, Or.inl rfl, rfl⟩
      | exact ⟨rfl, ChangeStatus.failed, Or.inr rfl, rfl⟩

theorem table_step_writes : WritesTerminal table_step := by
  intro s c
  unfold table_step
  repeat' split
  all_goals
    first
      | exact ⟨rfl, ChangeStatus.applied, Or.inl rfl, rfl⟩
      | exact ⟨rfl, ChangeStatus.failed, Or.inr rfl, rfl⟩

theorem foldl_wf_status (step : EngineState → DocumentChange → EngineState)
    (hw : WritesTerminal step) (cs : List DocumentChange) :
    ∀ s : EngineState, ((cs.foldl step s).wf.status = s.wf.status) := by
  induction cs with
  | nil => intro s; rfl
  | cons c rest ih =>
    intro s
    rw [List.foldl_cons, ih (step s c), (hw s c).1]

theorem paragraph_of_has_index (c : DocumentChange) (h : has_paragraph_index c = true) :
    ∃ i ri, c.location = ChangeLocation.paragraph i ri := by
  unfold has_paragraph_index at h
  cases hcl : c.location <;> rw [hcl] at h
  case paragraph i ri => exact ⟨i, ri, rfl⟩
  all_goals simp at h

theorem not_any_key (L : List DocumentChange) (m : Nat)
    (h : ∀ c' ∈ L, ¬ para_index_key c' = (m : Int)) :
    (!(L.any (fun c' => para_index_key c' == (m : Int)))) = true := by
  rw [Bool.not_eq_true', List.any_eq_false]
  intro x hx
  simpa using h x hx

/-- Folding `delete_step` over a strictly descending, in-bounds list of
paragraph-located changes removes exactly the addressed indices. -/
theorem delete_fold_doc (cs : List DocumentChange) :
    ∀ s : EngineState,
      (∀ c ∈ cs, has_paragraph_index c = true) →
      cs.Pairwise (fun a b => para_index_key b < para_index_key a) →
      (∀ c ∈ cs, 0 ≤ para_index_key c ∧ para_index_key c < (s.doc.paras.length : Int)) →
      (cs.foldl delete_step s).doc.paras
          = keepIdx s.doc.paras 0
              (fun n => !(cs.any (fun c => para_index_key c == (n : Int))))
        ∧ (cs.foldl delete_step s).doc.tables = s.doc.tables := by
  induction cs with
  | nil =>
    intro s _ _ _
    refine ⟨?_, rfl⟩
    symm
    apply keepIdx_all_true
    intro m _
    simp
  | cons c rest ih =>
    intro s hloc hsort hb
    rcases paragraph_of_has_index c (hloc c (List.mem_cons_self c rest)) with ⟨i, ri, hcl⟩
    have hkey : para_index_key c = i := by simp [para_index_key, hcl]
    have hbc := hb c (List.mem_cons_self c rest)
    have hin : 0 ≤ i ∧ i < (s.doc.paras.length : Int) := by
      rw [← hkey]
      exact hbc
    have hitn : i.toNat < s.doc.paras.length := by omega
    have hdp : delete_paragraph s.doc i
        = ({ s.doc with paras := s.doc.paras.eraseIdx i.toNat }, true) := by
      rw [delete_paragraph, if_pos hin]
    have hsdoc : (delete_step s c).doc = { s.doc with paras := s.doc.paras.eraseIdx i.toNat } := by
      simp [delete_step, hcl, hdp]
    have hlen' : ((delete_step s c).doc.paras.length : Int) = (s.doc.paras.length : Int) - 1 := by
      rw [hsdoc]
      simp [List.length_eraseIdx, hitn]
      omega
    have hrest_lt : ∀ c' ∈ rest, para_index_key c' < i := by
      intro c' hc'
      have := List.rel_of_pairwise_cons hsort hc'
      omega
    have hb' : ∀ c' ∈ rest,
        0 ≤ para_index_key c' ∧ para_index_key c' < ((delete_step s c).doc.paras.length : Int) := by
      intro c' hc'
      have h1 := hb c' (List.mem_cons_of_mem c hc')
      have h2 := hrest_lt c' hc'
      rw [hlen']
      omega
    have hmain := ih (delete_step s c)
      (fun c' hc' => hloc c' (List.mem_cons_of_mem c hc'))
      (List.Pairwise.of_cons hsort) hb'
    rw [List.foldl_cons]
    refine ⟨?_, by rw [hmain.2, hsdoc]⟩
    rw [hmain.1, hsdoc]
    show keepIdx (s.doc.paras.eraseIdx i.toNat) 0 _ = _
    rw [keepIdx_eraseIdx s.doc.paras i.toNat hitn
      (fun n => !((c :: rest).any (fun c' => para_index_key c' == (n : Int))))
      (fun n => !(rest.any (fun c' => para_index_key c' == (n : Int))))
      ?hpi ?hup ?hlo ?hqa]
    case hpi =>
      rw [Bool.not_eq_false', List.any_eq_true]
      refine ⟨c, List.mem_cons_self c rest, ?_⟩
      have : (i.toNat : Int) = i := by omega
      simp [hkey, this]
    case hup =>
      intro m hm
      apply not_any_key
      intro c' hc'
      rcases List.mem_cons.mp hc' with h | h
      · subst h
        omega
      · have := hrest_lt c' h
        omega
    case hlo =>
      intro m hm
      have hcne : (para_index_key c == ((m : Nat) : Int)) = false := by
        simp [hkey]
        omega
      simp [List.any_cons, hcne]
    case hqa =>
      intro m hm
      apply not_any_key
      intro c' hc'
      have := hrest_lt c' hc'
      omega

/-- C6: the delete phase of `apply_workflow` sorts the accepted
`PARAGRAPH_DELETE` changes descending by `paragraph_index` and deletes in
that order (first conjunct: the processed list is a permutation of the
bucket, pairwise descending), and for distinct in-bounds pre-application
indices the resulting document is the original with exactly the logical
paragraphs at those indices removed (second conjunct), for any number of
deletes.  The tables are untouched (third conjunct). -/
theorem C6_delete_ordering_invariant (d : Document) (w : ChangeWorkflow)
    (hloc : ∀ c ∈ accepted_deletes w, has_paragraph_index c = true)
    (hdist : (accepted_deletes w).Pairwise
      (fun a b => para_index_key a ≠ para_index_key b))
    (hb : ∀ c ∈ accepted_deletes w,
      0 ≤ para_index_key c ∧ para_index_key c < (d.paras.length : Int)) :
    ((sorted_deletes w).Perm (accepted_deletes w)
      ∧ (sorted_deletes w).Pairwise (fun a b => para_index_key b ≤ para_index_key a))
    ∧ ((sorted_deletes w).foldl delete_step ⟨d, w⟩).doc.paras
        = keepIdx d.paras 0
            (fun n => !((accepted_deletes w).any (fun c => para_index_key c == (n : Int))))
    ∧ ((sorted_deletes w).foldl delete_step ⟨d, w⟩).doc.tables = d.tables := by
  have hperm : (sorted_deletes w).Perm (accepted_deletes w) :=
    List.perm_insertionSort _ _
  haveI htotal : IsTotal DocumentChange
      (fun a b => para_index_key b ≤ para_index_key a) :=
    ⟨fun a b => Int.le_total _ _⟩
  haveI htrans : IsTrans DocumentChange
      (fun a b => para_index_key b ≤ para_index_key a) :=
    ⟨fun a b c h1 h2 => le_trans h2 h1⟩
  have hsorted : (sorted_deletes w).Pairwise
      (fun a b => para_index_key b ≤ para_index_key a) :=
    List.sorted_insertionSort _ (accepted_deletes w)
  have hdist' : (sorted_deletes w).Pairwise
      (fun a b => para_index_key a ≠ para_index_key b) :=
    (List.Perm.pairwise_iff (fun h => Ne.symm h) hperm).mpr hdist
  have hstrict : (sorted_deletes w).Pairwise
      (fun a b => para_index_key b < para_index_key a) :=
    (hsorted.and hdist').imp (fun h => lt_of_le_of_ne h.1 h.2.symm)
  have hfold := delete_fold_doc (sorted_deletes w) ⟨d, w⟩
    (fun c hc => hloc c (hperm.mem_iff.mp hc)) hstrict
    (fun c hc => hb c (hperm.mem_iff.mp hc))
  have hpred : (fun (n : Nat) => !((sorted_deletes w).any
        (fun c => para_index_key c == (n : Int))))
      = (fun (n : Nat) => !((accepted_deletes w).any
        (fun c => para_index_key c == (n : Int)))) := by
    funext n
    have : ((sorted_deletes w).any (fun c => para_index_key c == (n : Int)))
        = ((accepted_deletes w).any (fun c => para_index_key c == (n : Int))) := by
      rw [Bool.eq_iff_iff, List.any_eq_true, List.any_eq_true]
      constructor
      · rintro ⟨x, hx, hpx⟩; exact ⟨x, hperm.mem_iff.mp hx, hpx⟩
      · rintro ⟨x, hx, hpx⟩; exact ⟨x, hperm.mem_iff.mpr hx, hpx⟩
    rw [this]
  refine ⟨⟨hperm, hsorted⟩, ?_, hfold.2⟩
  rw [hfold.1, hpred]

/-! ## Concrete fixtures for witnesses and counterexamples -/

/-- A plain body paragraph. -/
def samplePara (t : String) : Para := ⟨some "Normal", [⟨t, defaultFormatting⟩]⟩

/-- A heading paragraph with the given level. -/
def sampleHeading (lvl : Nat) (t : String) : Para :=
  ⟨some ("Heading " ++ toString lvl), [⟨t, defaultFormatting⟩]⟩

/-- The document `[A, B, C, D]` of the specification's delete example. -/
def sampleDoc4 : Document :=
  ⟨[samplePara "A", samplePara "B", samplePara "C", samplePara "D"], []⟩

/-- An accepted `PARAGRAPH_DELETE` at the given index. -/
def sampleDelete (id : String) (i : Int) : DocumentChange :=
  ⟨id, "doc", .paragraph_delete, .paragraph i none, none, none, .accepted⟩

/-- Deletes at pre-application indices `{1, 3}`. -/
def sampleDeleteWorkflow : ChangeWorkflow :=
  ⟨[sampleDelete "c1" 1, sampleDelete "c2" 3], "active"⟩

/-- An accepted `TABLE_ROW_ADD` change: the dispatch loop of
`apply_workflow` (lines 44-59) has no branch for this type. -/
def sampleRowAdd : DocumentChange :=
  ⟨"r1", "doc", .table_row_add, .table 0 0 0, none, none, .accepted⟩

/-- An accepted `FORMAT_CHANGE` change: also unhandled by the dispatch
loop. -/
def sampleFormatChange : DocumentChange :=
  ⟨"f1", "doc", .format_change, .paragraph 0 none, none, none, .accepted⟩

/-- An accepted `TEXT_UPDATE` whose locator is a table location, not a
`LocationParagraph`: the dispatch loop files text updates only under
`isinstance(change.location, LocationParagraph)`. -/
def sampleTextUpdateTableLoc : DocumentChange :=
  ⟨"t2", "doc", .text_update, .table 0 0 0, none, some (.pstr "x"), .accepted⟩

/-- A workflow whose three accepted changes are all of unhandled
type/locator combinations. -/
def sampleUnhandledWorkflow : ChangeWorkflow :=
  ⟨[sampleRowAdd, sampleFormatChange, sampleTextUpdateTableLoc], "active"⟩

/-- An accepted paragraph-level `TEXT_UPDATE` whose `paragraph_index` (5)
is beyond the length of `sampleC2Doc` (1 paragraph). -/
def sampleC2Change : DocumentChange :=
  ⟨"t1", "doc", .text_update, .paragraph 5 none, none, some (.pstr "x"), .accepted⟩

/-- A one-paragraph document. -/
def sampleC2Doc : Document := ⟨[samplePara "A"], []⟩

/-- A workflow with no accepted change (one proposed, one rejected). -/
def sampleProposedWorkflow : ChangeWorkflow :=
  ⟨[⟨"p1", "doc", .text_update, .paragraph 0 none, none, some (.pstr "x"), .proposed⟩,
    ⟨"p2", "doc", .paragraph_delete, .paragraph 0 none, none, none, .rejected⟩],
   "active"⟩

/-! ## Claim theorems -/

/-- Witness for C6 at the specification's own example: document
`[A, B, C, D]`, deletes at pre-application indices `{1, 3}`. -/
theorem C6_witness :
    ((sorted_deletes sampleDeleteWorkflow).foldl delete_step
        ⟨sampleDoc4, sampleDeleteWorkflow⟩).doc.paras
      = keepIdx sampleDoc4.paras 0
          (fun n => !((accepted_deletes sampleDeleteWorkflow).any
            (fun c => para_index_key c == (n : Int)))) :=
  (C6_delete_ordering_invariant sampleDoc4 sampleDeleteWorkflow (by decide)
    (by decide) (by decide)).2.1

/-- C9: applying a workflow with zero `Accepted` changes leaves the
document structure byte-for-byte identical (the buckets are all empty, so
no phase touches the document). -/
theorem C9_noop_application_preserves_document (d : Document) (w : ChangeWorkflow)
    (hacc : get_accepted_changes w = []) :
    (apply_workflow d w).doc = d := by
  simp [apply_workflow, sorted_deletes, sorted_inserts, accepted_deletes,
    accepted_inserts, accepted_text_updates_para, accepted_text_updates_run,
    accepted_section_replaces, accepted_table_cell_updates, hacc]

/-- Witness for C9: a workflow holding one proposed and one rejected
change leaves `sampleDoc4` unchanged. -/
theorem C9_witness :
    (apply_workflow sampleDoc4 sampleProposedWorkflow).doc = sampleDoc4 :=
  C9_noop_application_preserves_document sampleDoc4 sampleProposedWorkflow (by decide)

/-- C2 (code bug evidence): an accepted paragraph-level `TextUpdate` whose
`paragraph_index` (5) is out of bounds for the one-paragraph document is
marked `APPLIED`, not `FAILED`, while the document is left unchanged:
`update_paragraph_text` returns silently on an out-of-bounds index
(`word_editor.py` lines 279-282) and the applier then marks the change
applied unconditionally (`workflow_applier.py` lines 161-162).  The claim
(and the specification's failure semantics) require `FAILED` here. -/
theorem C2_out_of_bounds_text_update_marked_applied :
    ((apply_workflow sampleC2Doc ⟨[sampleC2Change], "active"⟩).wf.proposed_changes.map
        (fun c => c.status) = [ChangeStatus.applied])
      ∧ (apply_workflow sampleC2Doc ⟨[sampleC2Change], "active"⟩).doc = sampleC2Doc := by
  decide

/-- Counterexample to C8 as stated: after the pass, the workflow status is
`"completed"` although its only changes are still `Accepted` — a
non-terminal status.  `all_changes_reviewed` counts `Accepted` as
reviewed, so the applier's final check flips the workflow to completed. -/
theorem C8_counterexample :
    (apply_workflow sampleDoc4 sampleUnhandledWorkflow).wf.status = "completed"
      ∧ ((apply_workflow sampleDoc4 sampleUnhandledWorkflow).wf.proposed_changes.map
          (fun c => c.status)
          = [ChangeStatus.accepted, ChangeStatus.accepted, ChangeStatus.accepted]) := by
  decide

/-- C7: the insert phase processes the accepted `ParagraphInsert` changes
in ascending order of `paragraph_index` (first conjunct: the list the
phase folds over is a permutation of the bucket, pairwise ascending), and
each single insert step with target index `t` and `0 ≤ t ≤` current
paragraph count makes the new paragraph occupy index `t` — `t = 0` places
it before the current first paragraph (or into an empty document) and
`t = length` appends — while a target outside those bounds marks exactly
that change `FAILED` and leaves the document untouched. -/
theorem C7_insert_phase (w : ChangeWorkflow) :
    ((sorted_inserts w).Perm (accepted_inserts w)
      ∧ (sorted_inserts w).Pairwise (fun a b => para_index_key a ≤ para_index_key b))
    ∧ (∀ (s : EngineState) (c : DocumentChange) (t : Int) (ri : Option Int) (v : PyValue),
        c.location = ChangeLocation.paragraph t ri → c.new_value = some v →
        ((0 ≤ t ∧ t ≤ (s.doc.paras.length : Int) →
            (insert_step s c).doc.paras
              = s.doc.paras.take t.toNat ++ [mkParagraph (pyStr v) none]
                  ++ s.doc.paras.drop t.toNat
            ∧ (insert_step s c).wf = update_change_status s.wf c.change_id .applied)
          ∧ (¬ (0 ≤ t ∧ t ≤ (s.doc.paras.length : Int)) →
            (insert_step s c).doc = s.doc
            ∧ (insert_step s c).wf = update_change_status s.wf c.change_id .failed))) := by
  constructor
  · haveI : IsTotal DocumentChange (fun a b => para_index_key a ≤ para_index_key b) :=
      ⟨fun a b => Int.le_total _ _⟩
    haveI : IsTrans DocumentChange (fun a b => para_index_key a ≤ para_index_key b) :=
      ⟨fun a b c h1 h2 => le_trans h1 h2⟩
    exact ⟨List.perm_insertionSort _ _, List.sorted_insertionSort _ _⟩
  · intro s c t ri v hcl hnv
    unfold insert_step
    rw [hcl, hnv]
    dsimp only
    constructor
    · intro hin
      rw [if_pos hin]
      by_cases ht0 : t = 0
      · subst ht0
        simp only [Int.toNat_zero, List.take_zero, List.drop_zero, beq_self_eq_true,
          if_true]
        by_cases hlen : 0 < s.doc.paras.length
        · rw [if_pos hlen]
          exact ⟨by simp, by trivial⟩
        · rw [if_neg hlen]
          have : s.doc.paras = [] := by
            cases h : s.doc.paras with
            | nil => rfl
            | cons a l => rw [h] at hlen; simp at hlen
          rw [this]
          exact ⟨by simp, by trivial⟩
      · have ht0' : (t == 0) = false := by simpa using ht0
        rw [ht0']
        simp only [Bool.false_eq_true, if_false]
        have hpos : 0 < t ∧ t ≤ (s.doc.paras.length : Int) := ⟨by omega, hin.2⟩
        rw [if_pos hpos]
        have hb' : 0 ≤ t - 1 ∧ t - 1 < (s.doc.paras.length : Int) := by omega
        unfold insert_paragraph_after
        rw [if_pos hb']
        by_cases hlast : t = (s.doc.paras.length : Int)
        · have : (t - 1 == (s.doc.paras.length : Int) - 1) = true := by
            simp
            omega
          rw [this]
          simp only [if_true]
          refine ⟨?_, by trivial⟩
          have htn : t.toNat = s.doc.paras.length := by omega
          rw [htn, List.take_length, List.drop_length]
          simp
        · have : (t - 1 == (s.doc.paras.length : Int) - 1) = false := by
            simp
            omega
          rw [this]
          simp only [Bool.false_eq_true, if_false]
          refine ⟨?_, by trivial⟩
          have htn : (t - 1).toNat + 1 = t.toNat := by omega
          rw [htn]
    · intro hout
      rw [if_neg hout]
      exact ⟨rfl, rfl⟩

/-- Accepted `PARAGRAPH_INSERT` of the given text at the given target
index. -/
def sampleInsert (id : String) (i : Int) (t : String) : DocumentChange :=
  ⟨id, "doc", .paragraph_insert, .paragraph i none, none, some (.pstr t), .accepted⟩

/-- Two accepted inserts, listed out of order. -/
def sampleInsertWorkflow : ChangeWorkflow :=
  ⟨[sampleInsert "i3" 3 "Z", sampleInsert "i1" 1 "X"], "active"⟩

/-- Witness for C7: the sort of the two-insert bucket is a permutation of
it, and the single insert at target index 1 on `[A, B, C, D]` puts the new
paragraph at index 1. -/
theorem C7_witness :
    (sorted_inserts sampleInsertWorkflow).Perm (accepted_inserts sampleInsertWorkflow)
    ∧ (insert_step ⟨sampleDoc4, sampleInsertWorkflow⟩ (sampleInsert "i1" 1 "X")).doc.paras
        = sampleDoc4.paras.take (1 : Int).toNat ++ [mkParagraph (pyStr (.pstr "X")) none]
            ++ sampleDoc4.paras.drop (1 : Int).toNat := by
  have h := C7_insert_phase sampleInsertWorkflow
  refine ⟨h.1.1, ?_⟩
  exact ((h.2 ⟨sampleDoc4, sampleInsertWorkflow⟩ (sampleInsert "i1" 1 "X") 1 none
    (.pstr "X") rfl rfl).1 (by decide)).1

/-- Run-formatting snapshot application is the identity whenever the
captured font name, font size and character-style name are not the
Python-falsy values `""` / `0` (which the source's truthiness guards
silently drop) and the captured underline is not a `WD_UNDERLINE` enum
value (which the source's `is True`/`is False` assignment drops). -/
theorem fmtFromFirstRun_id (f : RunFormatting) (hname : f.fontName ≠ some "")
    (hsize : f.fontSize ≠ some 0) (hstyle : f.styleName ≠ some "")
    (hund : f.underline.isEnum = false) :
    fmtFromFirstRun f = f := by
  have h1 : ∀ o : Option String, o ≠ some "" →
      (match o with
        | some s => if s == "" then none else some s
        | none => none) = o := by
    intro o ho
    cases o with
    | none => rfl
    | some s =>
      have hs : ¬ s = "" := fun h => ho (by rw [h])
      simp [hs]
  have h2 : ∀ o : Option Nat, o ≠ some 0 →
      (match o with
        | some n => if n == 0 then none else some n
        | none => none) = o := by
    intro o ho
    cases o with
    | none => rfl
    | some n =>
      have hn : ¬ n = 0 := fun h => ho (by rw [h])
      simp [hn]
  have h4 : ∀ u : UnderlineValue, u.isEnum = false → copyUnderline u = u := by
    intro u hu
    cases u with
    | unset => rfl
    | plain b => cases b <;> rfl
    | enumVal v => simp [UnderlineValue.isEnum] at hu
  obtain ⟨b, it, u, fn, fs, col, hl, st, sub, sup, ac, sc, sn⟩ := f
  simp only at hname hsize hstyle hund
  unfold fmtFromFirstRun
  rw [h1 fn hname, h2 fs hsize, h1 sn hstyle, h4 u hund]

theorem getD_set_self {α : Type _} (l : List α) (n : Nat) (a dflt : α)
    (h : n < l.length) : (l.set n a).getD n dflt = a := by
  rw [List.getD_eq_getElem?_getD, List.getElem?_set_self h]
  rfl

/-- C3 (amended): replacing the whole text of a paragraph whose runs are
`r :: rs` with `update_paragraph_text(..., preserve_style=True)` leaves a
single run holding the new text and exactly the first original run's
formatting snapshot, for any new text — provided that snapshot's font
name, font size and character-style name are not the Python-falsy values
`""`/`0`, which the source's truthiness guards drop instead of copying,
and its underline is not a `WD_UNDERLINE` enum value, which the source's
`is True`/`is False` assignment (lines 370-376) likewise drops. -/
theorem C3_formatting_snapshot_preserved (d : Document) (pi : Int) (new_text : String)
    (hi : 0 ≤ pi ∧ pi < (d.paras.length : Int))
    (r : Run) (rs : List Run)
    (hruns : (d.paras.getD pi.toNat ⟨none, []⟩).runs = r :: rs)
    (hname : r.fmt.fontName ≠ some "")
    (hsize : r.fmt.fontSize ≠ some 0)
    (hstyle : r.fmt.styleName ≠ some "")
    (hund : r.fmt.underline.isEnum = false) :
    (update_paragraph_text d pi new_text true).paras.getD pi.toNat ⟨none, []⟩
      = { d.paras.getD pi.toNat ⟨none, []⟩ with runs := [⟨new_text, r.fmt⟩] } := by
  unfold update_paragraph_text
  rw [if_pos hi]
  dsimp only
  rw [hruns]
  dsimp only
  have hlen : pi.toNat < d.paras.length := by omega
  rw [getD_set_self _ _ _ _ hlen]
  rw [fmtFromFirstRun_id r.fmt hname hsize hstyle hund]
  simp

/-- First original run carrying formatting values the copy path drops: an
empty font name and a `WD_UNDERLINE` enum underline (double underline,
enum value 3), plus bold to show other attributes are copied. -/
def sampleEmptyNameFmt : RunFormatting :=
  { defaultFormatting with
    bold := some true
    fontName := some ""
    underline := .enumVal 3 }

/-- One paragraph whose only run has the empty font name and the enum
underline. -/
def sampleC3Doc : Document :=
  ⟨[⟨some "Normal", [⟨"old", sampleEmptyNameFmt⟩]⟩], []⟩

/-- Counterexample to C3 as stated: the first original run's font name is
`""` and its underline is the `WD_UNDERLINE` double-underline enum value
(first conjunct), but after the whole-paragraph text update the single new
run's font name and underline are both unset (second conjunct), not equal
to the captured values: the source copies the font name only under `if
font_to_apply.get('name'):` (false for the empty string) and reassigns the
underline only when it `is True` or `is False` (never for an enum value).
Bold is still copied and the text is replaced (third conjunct). -/
theorem C3_counterexample :
    (sampleC3Doc.paras.map
        (fun p => p.runs.map (fun r => (r.fmt.fontName, r.fmt.underline)))
        = [[(some "", UnderlineValue.enumVal 3)]])
      ∧ ((update_paragraph_text sampleC3Doc 0 "y" true).paras.map
          (fun p => p.runs.map (fun r => (r.fmt.fontName, r.fmt.underline)))
          = [[(none, UnderlineValue.unset)]])
      ∧ ((update_paragraph_text sampleC3Doc 0 "y" true).paras.map
          (fun p => p.runs.map (fun r => (r.text, r.fmt.bold)))
          = [[("y", some true)]]) := by
  decide

/-- A first run with ordinary formatting: bold, font `"X"`, size 12. -/
def sampleFancyFmt : RunFormatting :=
  { defaultFormatting with bold := some true, fontName := some "X", fontSize := some 12 }

/-- A paragraph with two runs whose first run is `sampleFancyFmt`. -/
def sampleC3FancyDoc : Document :=
  ⟨[⟨some "Normal", [⟨"old", sampleFancyFmt⟩, ⟨"tail", defaultFormatting⟩]⟩], []⟩

/-- Witness for C3 (amended): replacing the text of the two-run paragraph
leaves one run with the new text and the first run's snapshot. -/
theorem C3_witness :
    (update_paragraph_text sampleC3FancyDoc 0 "newtext" true).paras.getD
        (0 : Int).toNat ⟨none, []⟩
      = { sampleC3FancyDoc.paras.getD (0 : Int).toNat ⟨none, []⟩ with
          runs := [⟨"newtext", sampleFancyFmt⟩] } :=
  C3_formatting_snapshot_preserved sampleC3FancyDoc 0 "newtext" (by decide)
    ⟨"old", sampleFancyFmt⟩ [⟨"tail", defaultFormatting⟩] (by decide) (by decide)
    (by decide) (by decide) (by decide)

theorem set_status_mem_eq (cs : List DocumentChange) (id : String) (st : ChangeStatus)
    (hnd : (cs.map (fun x => x.change_id)).Nodup) :
    ∀ c' ∈ set_status_by_id cs id st, c'.change_id = id → c'.status = st := by
  induction cs with
  | nil => intro c' h; exact absurd h (List.not_mem_nil c')
  | cons a rest ih =>
    rw [List.map_cons] at hnd
    have hnd' := List.nodup_cons.mp hnd
    intro c' hmem hid
    by_cases ha : (a.change_id == id) = true
    · rw [set_status_by_id, if_pos ha] at hmem
      rcases List.mem_cons.mp hmem with h | h
      · rw [h]
      · exfalso
        have haid : a.change_id = id := by simpa using ha
        apply hnd'.1
        rw [haid, ← hid]
        exact List.mem_map.mpr ⟨c', h, rfl⟩
    · have ha' : (a.change_id == id) = false := by
        cases hx : a.change_id == id with
        | true => exact absurd hx ha
        | false => rfl
      rw [set_status_by_id, if_neg (by simp [ha'])] at hmem
      rcases List.mem_cons.mp hmem with h | h
      · exfalso
        rw [h] at hid
        rw [hid] at ha'
        simp at ha'
      · exact ih hnd'.2 c' h hid

/-- C5: for every document and workflow whose only accepted change is a
`SectionReplace` whose heading text matches no paragraph, `apply_workflow`
leaves the document completely unchanged and sets exactly that change's
status to `FAILED` (the source path returns `False` from
`replace_text_after_heading` without raising, and the applier maps the
`False` to `FAILED`). -/
theorem C5_unknown_heading_failure (d : Document) (w : ChangeWorkflow)
    (c : DocumentChange) (ht : String) (hsn : Option String)
    (hids : (w.proposed_changes.map (fun x => x.change_id)).Nodup)
    (hacc : get_accepted_changes w = [c])
    (htype : c.change_type = ChangeType.section_replace)
    (hloc : c.location = ChangeLocation.section ht hsn)
    (hnomatch : ∀ p ∈ d.paras, heading_matches ht hsn p = false) :
    (apply_workflow d w).doc = d
    ∧ ∀ c' ∈ (apply_workflow d w).wf.proposed_changes,
        c'.change_id = c.change_id → c'.status = ChangeStatus.failed := by
  have hdel : accepted_deletes w = [] := by
    simp [accepted_deletes, hacc, htype]
  have hins : accepted_inserts w = [] := by
    simp [accepted_inserts, hacc, htype]
  have htup : accepted_text_updates_para w = [] := by
    simp [accepted_text_updates_para, hacc, is_para_text_update, htype]
  have htur : accepted_text_updates_run w = [] := by
    simp [accepted_text_updates_run, hacc, is_run_text_update, htype]
  have hsec : accepted_section_replaces w = [c] := by
    simp [accepted_section_replaces, hacc, htype]
  have htab : accepted_table_cell_updates w = [] := by
    simp [accepted_table_cell_updates, hacc, htype]
  have hfind : find_heading_index d.paras ht hsn = none := by
    rw [find_heading_index]
    exact List.findIdx?_eq_none_iff.mpr hnomatch
  have hrep : ∀ l, replace_text_after_heading d ht l hsn = (d, false) := by
    intro l
    rw [replace_text_after_heading, hfind]
  have hstep : section_step ⟨d, w⟩ c
      = ⟨d, update_change_status w c.change_id ChangeStatus.failed⟩ := by
    cases hnv : c.new_value with
    | none => simp [section_step, hloc, hnv]
    | some v =>
      cases v with
      | pstr s => simp [section_step, hloc, hnv]
      | plist l => simp [section_step, hloc, hnv, hrep l]
  have happ : apply_workflow d w
      = ⟨d,
         (if all_changes_reviewed (update_change_status w c.change_id ChangeStatus.failed)
          then { update_change_status w c.change_id ChangeStatus.failed with
                 status := "completed" }
          else update_change_status w c.change_id ChangeStatus.failed),
         false⟩ := by
    simp only [apply_workflow, hdel, hins, htup, htur, hsec, htab, sorted_deletes,
      sorted_inserts, List.insertionSort, List.all_nil, List.foldl_nil, List.foldl_cons,
      hstep, not_true, if_false]
  constructor
  · rw [happ]
  · intro c' hc' hid
    have hchanges : (apply_workflow d w).wf.proposed_changes
        = set_status_by_id w.proposed_changes c.change_id ChangeStatus.failed := by
      rw [happ]
      by_cases hrev : all_changes_reviewed (update_change_status w c.change_id ChangeStatus.failed) = true
      · rw [if_pos hrev]
        simp [update_change_status]
      · rw [if_neg hrev]
        simp [update_change_status]
    rw [hchanges] at hc'
    exact set_status_mem_eq w.proposed_changes c.change_id ChangeStatus.failed hids c' hc' hid

/-- An accepted `SectionReplace` for a heading text that does not occur in
`sampleDoc4`. -/
def sampleSectionChange : DocumentChange :=
  ⟨"s1", "doc", .section_replace, .section "Missing" (some "Heading 1"), none,
   some (.plist ["x"]), .accepted⟩

/-- Workflow holding only the unknown-heading section replace. -/
def sampleSectionWorkflow : ChangeWorkflow := ⟨[sampleSectionChange], "active"⟩

/-- Witness for C5: replacing the section under the absent heading
`"Missing"` leaves `[A, B, C, D]` unchanged and fails the change (the sole
record of the workflow). -/
theorem C5_witness :
    (apply_workflow sampleDoc4 sampleSectionWorkflow).doc = sampleDoc4
    ∧ ((apply_workflow sampleDoc4 sampleSectionWorkflow).wf.proposed_changes.getD 0
        sampleSectionChange).status = ChangeStatus.failed :=
  ⟨(C5_unknown_heading_failure sampleDoc4 sampleSectionWorkflow sampleSectionChange
      "Missing" (some "Heading 1") (by decide) (by decide) rfl rfl (by decide)).1,
   (C5_unknown_heading_failure sampleDoc4 sampleSectionWorkflow sampleSectionChange
      "Missing" (some "Heading 1") (by decide) (by decide) rfl rfl (by decide)).2
     ((apply_workflow sampleDoc4 sampleSectionWorkflow).wf.proposed_changes.getD 0
       sampleSectionChange) (by decide) (by decide)⟩

/-- C10: heading matching in `replace_text_after_heading` is asymmetric in
the optional style name.  With a (non-empty) style name supplied, a
paragraph matches iff its style name starts with the given name and the
heading text occurs anywhere as a substring of the paragraph text; with no
style name, iff the whitespace-stripped paragraph text equals the heading
text exactly; and the search returns the first matching paragraph in
document order. -/
theorem C10_heading_match_asymmetry :
    (∀ (ht : String) (p : Para) (hsn : String), hsn ≠ "" →
      (heading_matches ht (some hsn) p = true ↔
        ∃ sn, p.styleName = some sn ∧ StrLeads sn hsn ∧ StrSub ht p.text))
    ∧ (∀ (ht : String) (p : Para),
        heading_matches ht none p = true ↔ pyStrip p.text = ht)
    ∧ (∀ (paras : List Para) (ht : String) (hsn : Option String) (i : Nat),
        find_heading_index paras ht hsn = some i ↔
          (i < paras.length
            ∧ heading_matches ht hsn (paras.getD i ⟨none, []⟩) = true
            ∧ ∀ j, j < i →
                heading_matches ht hsn (paras.getD j ⟨none, []⟩) = false)) := by
  refine ⟨?_, ?_, ?_⟩
  · intro ht p hsn hne
    have htruthy : truthy (some hsn) = true := by simp [truthy, hne]
    unfold heading_matches
    rw [if_pos htruthy]
    cases hps : p.styleName with
    | none =>
      simp only [Bool.false_eq_true, false_iff]
      rintro ⟨sn, hsn', _⟩
      exact Option.noConfusion hsn'
    | some sn =>
      simp only [Option.getD_some, Bool.and_eq_true, Bool.not_eq_true', beq_eq_false_iff_ne]
      constructor
      · rintro ⟨⟨hne', hlead⟩, hsub⟩
        exact ⟨sn, rfl, (pyStartsWith_iff sn hsn).mp hlead, (pyIn_iff ht p.text).mp hsub⟩
      · rintro ⟨sn', heq', hlead, hsub⟩
        have hsn'' : sn' = sn := by
          injection heq' with h
          exact h.symm
        subst hsn''
        refine ⟨⟨?_, (pyStartsWith_iff sn' hsn).mpr hlead⟩, (pyIn_iff ht p.text).mpr hsub⟩
        rcases hlead with ⟨rest, hr⟩
        intro hempty
        apply hne
        rw [hempty] at hr
        have hlen : ("" : String).data.length = hsn.data.length + rest.data.length := by
          rw [hr, String.data_append, List.length_append]
        have h0 : ("" : String).data.length = 0 := rfl
        have hnil : hsn.data.length = 0 := by omega
        have hdata : hsn.data = [] := List.length_eq_zero.mp hnil
        exact String.ext (by rw [hdata])
  · intro ht p
    unfold heading_matches
    rw [if_neg (by simp [truthy])]
    rw [beq_iff_eq]
    exact eq_comm
  · intro paras ht hsn i
    rw [find_heading_index]
    exact findIdx_getD_iff _ _ paras i

/-- Witness for C10: the style-supplied branch matches by prefix and
substring (heading text `"A"` inside `"xxAyy"` under style `"Heading 1"`
for given name `"Heading"`), and the search returns the first match. -/
theorem C10_witness :
    heading_matches "A" (some "Heading") (sampleHeading 1 "xxAyy") = true
    ∧ find_heading_index [samplePara "q", sampleHeading 1 "xxAyy"] "A"
        (some "Heading") = some 1 := by
  have h := C10_heading_match_asymmetry
  constructor
  · exact (h.1 "A" (sampleHeading 1 "xxAyy") "Heading" (by decide)).mpr
      ⟨"Heading 1", rfl, ⟨" 1", by decide⟩, ⟨"xx", "yy", by decide⟩⟩
  · refine (h.2.2 [samplePara "q", sampleHeading 1 "xxAyy"] "A" (some "Heading") 1).mpr
      ⟨by decide, by decide, ?_⟩
    intro j hj
    have hj0 : j = 0 := by omega
    subst hj0
    decide

/-- C4: when the heading is present, `replace_text_after_heading` deletes
exactly the paragraphs strictly between the first matching heading (index
`i`, characterized by `hmatch`/`hfirst`) and the boundary `e` — the first
following paragraph that ends the section per `heading_boundary` (a
heading whose style-derived level is `≤` the starting heading's level, or
any heading when no style name was given or either level could not be
derived), or the document end — then inserts the new content paragraphs
immediately after the heading, leaving the heading itself and everything
at or after the boundary unchanged, and returns `True`. -/
theorem C4_section_replace_boundary (d : Document) (ht : String)
    (content : List String) (hsn : Option String) (i e : Nat)
    (hi : i < d.paras.length)
    (hmatch : heading_matches ht hsn (d.paras.getD i ⟨none, []⟩) = true)
    (hfirst : ∀ j, j < i → heading_matches ht hsn (d.paras.getD j ⟨none, []⟩) = false)
    (hie : i < e) (hle : e ≤ d.paras.length)
    (hnobound : ∀ j, i < j → j < e →
      heading_boundary (truthy hsn) (found_heading_level hsn (d.paras.getD i ⟨none, []⟩))
        (d.paras.getD j ⟨none, []⟩) = false)
    (hend : e = d.paras.length
      ∨ heading_boundary (truthy hsn) (found_heading_level hsn (d.paras.getD i ⟨none, []⟩))
          (d.paras.getD e ⟨none, []⟩) = true) :
    replace_text_after_heading d ht content hsn
      = ({ d with paras := d.paras.take (i + 1)
            ++ content.map (fun t => mkParagraph t none)
            ++ d.paras.drop e }, true) := by
  have hfind : find_heading_index d.paras ht hsn = some i := by
    rw [find_heading_index]
    exact (findIdx_getD_iff (heading_matches ht hsn) ⟨none, []⟩ d.paras i).mpr
      ⟨hi, hmatch, hfirst⟩
  have hgetd_drop : ∀ m : Nat,
      (d.paras.drop (i + 1)).getD m ⟨none, []⟩ = d.paras.getD (i + 1 + m) ⟨none, []⟩ := by
    intro m
    rw [List.getD_eq_getElem?_getD, List.getD_eq_getElem?_getD, List.getElem?_drop]
  have h_take1 : (d.paras.take (i + 1) ++ d.paras.drop e).take (i + 1)
      = d.paras.take (i + 1) := by
    rw [List.take_append_of_le_length (by rw [List.length_take]; omega)]
    rw [List.take_take]
    congr 1
    omega
  have h_drop1 : (d.paras.take (i + 1) ++ d.paras.drop e).drop (i + 1)
      = d.paras.drop e := by
    have hl : (d.paras.take (i + 1)).length = i + 1 := by
      rw [List.length_take]
      omega
    nth_rewrite 1 [← hl]
    rw [List.drop_left]
  unfold replace_text_after_heading
  rw [hfind]
  dsimp only
  rcases Nat.lt_or_ge e d.paras.length with hlt | hge
  · -- boundary strictly inside the document
    have hbound : heading_boundary (truthy hsn)
        (found_heading_level hsn (d.paras.getD i ⟨none, []⟩))
        (d.paras.getD e ⟨none, []⟩) = true := by
      rcases hend with h | h
      · omega
      · exact h
    have hsome : (d.paras.drop (i + 1)).findIdx?
        (heading_boundary (truthy hsn)
          (found_heading_level hsn (d.paras.getD i ⟨none, []⟩)))
        = some (e - i - 1) := by
      apply (findIdx_getD_iff _ ⟨none, []⟩ _ _).mpr
      refine ⟨by rw [List.length_drop]; omega, ?_, ?_⟩
      · rw [hgetd_drop]
        have har : i + 1 + (e - i - 1) = e := by omega
        rw [har]
        exact hbound
      · intro j hj
        rw [hgetd_drop]
        exact hnobound (i + 1 + j) (by omega) (by omega)
    rw [hsome]
    dsimp only
    have har1 : i + 1 + (e - i - 1) - i - 1 = e - i - 1 := by omega
    rw [har1]
    rw [erase_range_desc_spec d.paras i (e - i - 1) (by omega)]
    have har2 : i + 1 + (e - i - 1) = e := by omega
    rw [har2]
    by_cases hc : content.isEmpty
    · rw [if_pos hc]
      have hcnil : content = [] := List.isEmpty_iff.mp hc
      subst hcnil
      simp
    · rw [if_neg (by simp [hc])]
      have hlen1 : (d.paras.take (i + 1) ++ d.paras.drop e).length
          = (i + 1) + (d.paras.length - e) := by
        rw [List.length_append, List.length_take, List.length_drop]
        congr 1
        omega
      rw [if_pos (by rw [hlen1]; omega)]
      rw [insert_texts_before_spec content _ (i + 1) (by rw [hlen1]; omega)]
      rw [h_take1, h_drop1]
  · -- section runs to the end of the document
    have he : e = d.paras.length := by omega
    have hnone : (d.paras.drop (i + 1)).findIdx?
        (heading_boundary (truthy hsn)
          (found_heading_level hsn (d.paras.getD i ⟨none, []⟩)))
        = none := by
      apply findIdx_getD_none
      intro j hj
      rw [List.length_drop] at hj
      rw [hgetd_drop]
      exact hnobound (i + 1 + j) (by omega) (by omega)
    rw [hnone]
    dsimp only
    rw [erase_range_desc_spec d.paras i (d.paras.length - i - 1) (by omega)]
    have har3 : i + 1 + (d.paras.length - i - 1) = d.paras.length := by omega
    rw [har3]
    rw [List.drop_length]
    by_cases hc : content.isEmpty
    · rw [if_pos hc]
      have hcnil : content = [] := List.isEmpty_iff.mp hc
      subst hcnil
      rw [he, List.drop_length]
      simp
    · rw [if_neg (by simp [hc])]
      have hlen2 : (d.paras.take (i + 1) ++ ([] : List Para)).length = i + 1 := by
        rw [List.length_append, List.length_take]
        simp
        omega
      rw [if_neg (by rw [hlen2]; omega)]
      rw [append_texts_spec]
      rw [he, List.drop_length]
      simp

/-- The specification's boundary example:
`[H1 "A", p1, p2, H2 "B", p3, H1 "C", p4]`. -/
def sampleSectionDoc : Document :=
  ⟨[sampleHeading 1 "A", samplePara "p1", samplePara "p2", sampleHeading 2 "B",
    samplePara "p3", sampleHeading 1 "C", samplePara "p4"], []⟩

/-- Witness for C4 at the specification's example: replacing section "A"
(Heading 1) with `["x"]` deletes everything strictly between the heading
(index 0) and the next Heading-1 boundary (index 5), including the nested
Heading-2 subtree. -/
theorem C4_witness :
    replace_text_after_heading sampleSectionDoc "A" ["x"] (some "Heading 1")
      = ({ sampleSectionDoc with paras := sampleSectionDoc.paras.take (0 + 1)
            ++ (["x"].map (fun t => mkParagraph t none))
            ++ sampleSectionDoc.paras.drop 5 }, true) :=
  C4_section_replace_boundary sampleSectionDoc "A" ["x"] (some "Heading 1") 0 5
    (by decide) (by decide) (fun j hj => absurd hj (Nat.not_lt_zero j))
    (by decide) (by decide)
    (by
      intro j h1 h2
      interval_cases j <;> decide)
    (Or.inr (by decide))

/-- The six phase folds of `apply_workflow`, in source order (deletes,
inserts, paragraph text updates, run text updates, section replaces,
table cell updates), starting from the given document and workflow. -/
def phase_chain (d : Document) (w : ChangeWorkflow) : EngineState :=
  (accepted_table_cell_updates w).foldl table_step
    ((accepted_section_replaces w).foldl section_step
      ((accepted_text_updates_run w).foldl text_update_run_step
        ((accepted_text_updates_para w).foldl text_update_para_step
          ((sorted_inserts w).foldl insert_step
            ((sorted_deletes w).foldl delete_step ⟨d, w⟩)))))

/-- `apply_workflow` with both locator-attribute checks passing: the six
phases run in order and the workflow status is then finalized. -/
theorem apply_workflow_unfold (d : Document) (w : ChangeWorkflow)
    (h1 : (accepted_deletes w).all has_paragraph_index = true)
    (h2 : (accepted_inserts w).all has_paragraph_index = true) :
    apply_workflow d w =
      ⟨(phase_chain d w).doc,
       (if all_changes_reviewed (phase_chain d w).wf
        then { (phase_chain d w).wf with status := "completed" }
        else (phase_chain d w).wf),
       false⟩ := by
  unfold apply_workflow phase_chain
  rw [h1, h2]
  simp

theorem phase_chain_wf_status (d : Document) (w : ChangeWorkflow) :
    (phase_chain d w).wf.status = w.status := by
  unfold phase_chain
  rw [foldl_wf_status _ table_step_writes, foldl_wf_status _ section_step_writes,
    foldl_wf_status _ text_update_run_step_writes,
    foldl_wf_status _ text_update_para_step_writes,
    foldl_wf_status _ insert_step_writes, foldl_wf_status _ delete_step_writes]

/-- A workflow mixing the five handled accepted combinations with a
rejected record. -/
def sampleMixedWorkflow : ChangeWorkflow :=
  ⟨[⟨"m1", "doc", .text_update, .paragraph 0 none, none, some (.pstr "t"), .accepted⟩,
    ⟨"m2", "doc", .paragraph_delete, .paragraph 2 none, none, none, .accepted⟩,
    ⟨"m3", "doc", .paragraph_insert, .paragraph 1 none, none, some (.pstr "n"), .accepted⟩,
    ⟨"m4", "doc", .section_replace, .section "Q" none, none, some (.plist ["y"]), .accepted⟩,
    ⟨"m5", "doc", .table_cell_update, .table 0 0 0, none, some (.pstr "z"), .accepted⟩,
    ⟨"m6", "doc", .paragraph_delete, .paragraph 9 none, none, none, .rejected⟩],
   "active"⟩

/-- `all_changes_reviewed` holds exactly when no change is `Proposed`. -/
theorem all_changes_reviewed_iff (wfx : ChangeWorkflow) :
    all_changes_reviewed wfx = true
      ↔ ∀ c ∈ wfx.proposed_changes, c.status ≠ ChangeStatus.proposed := by
  rw [all_changes_reviewed, List.all_eq_true]
  constructor
  · intro h c hc
    have := h c hc
    cases hcs : c.status <;> rw [hcs] at this <;> simp at this ⊢
  · intro h c hc
    have := h c hc
    cases hcs : c.status <;> rw [hcs] at this <;> simp at this ⊢

/-- C8 (amended): for an `active` workflow whose accepted deletes and
inserts all carry paragraph locators (so the pass completes), the workflow
status after `apply_workflow` is `"completed"` exactly when every change
record's post-pass status is *reviewed*, i.e. not `Proposed` (equivalently
in `{Accepted, Rejected, Applied, Failed}`).  This is weaker than the
claim's terminal set `{Rejected, Applied, Failed}`: a change still
`Accepted` does not block completion (see the counterexample). -/
theorem C8_completed_iff_all_reviewed (d : Document) (w : ChangeWorkflow)
    (hactive : w.status = "active")
    (hdelloc : ∀ c ∈ accepted_deletes w, has_paragraph_index c = true)
    (hinsloc : ∀ c ∈ accepted_inserts w, has_paragraph_index c = true) :
    (apply_workflow d w).wf.status = "completed"
      ↔ ∀ c ∈ (apply_workflow d w).wf.proposed_changes,
          c.status ≠ ChangeStatus.proposed := by
  have halldel : (accepted_deletes w).all has_paragraph_index = true :=
    List.all_eq_true.mpr hdelloc
  have hallins : (accepted_inserts w).all has_paragraph_index = true :=
    List.all_eq_true.mpr hinsloc
  rw [apply_workflow_unfold d w halldel hallins]
  by_cases hrev : all_changes_reviewed (phase_chain d w).wf = true
  · rw [if_pos hrev]
    constructor
    · intro _
      exact (all_changes_reviewed_iff _).mp hrev
    · intro _
      rfl
  · rw [if_neg hrev]
    constructor
    · intro hst
      exfalso
      have := phase_chain_wf_status d w
      rw [hst] at this
      rw [hactive] at this
      exact absurd this (by decide)
    · intro h
      exfalso
      exact hrev ((all_changes_reviewed_iff _).mpr h)

/-- Witness for C8 (amended): the mixed workflow (which still holds a
rejected record but nothing `Proposed`) is marked completed after the
pass. -/
theorem C8_witness :
    (apply_workflow sampleDoc4 sampleMixedWorkflow).wf.status = "completed" :=
  (C8_completed_iff_all_reviewed sampleDoc4 sampleMixedWorkflow rfl
    (by decide) (by decide)).mpr (by decide)
